import Mathlib

/-!
Verification of the eclone service-account pool (src/backend/drive/saPool.go).

The Go code is shallowly embedded as follows:
- `map[int]SaEntry` (`sas`): throughout the program its keys stay dense
  `0..n-1` (`updateSas` rebuilds them densely, `staleSa`/`revertStaleSa`
  write only to keys guarded by an `ok` check, appends happen at `len`),
  so it is modelled as a `List SaEntry` indexed by position.  A read of a
  missing key yields Go's zero value `⟨"", false⟩` (`sasGet`).
- `map[string]int` (`saPool`) and the blacklist `sync.Map` are modelled as
  association lists whose keys are unique by construction; a read of a
  missing key yields the zero value via `getD`.  Go map iteration order is
  arbitrary; where an operation depends on it (`randomPick`) the
  nondeterminism is captured by an oracle argument ranging over all
  positions, and where it cannot matter (single possible match, or a
  permutation is drawn on top of it) the list order is used.
- `rand.Intn` / `rand.Perm` become an oracle `Nat` (reduced mod the size)
  and an explicit permutation argument quantified in the theorems.
- `time.Now` becomes an explicit `now : Int` (nanoseconds, like Go's
  `time.Duration`); `time.Since t > d` becomes `now - t > d`.
-/

namespace EClone

/-- One service-account file with its stale flag (Go struct `SaEntry`). -/
structure SaEntry where
  saPath : String
  isStale : Bool
deriving Repr, DecidableEq

/-- Go's zero value for `SaEntry`, returned by a read of a missing map key. -/
def zeroEntry : SaEntry := ⟨"", false⟩

/-- Read `p.sas[i]` for an `int` index: the entry at position `i`, or the
zero value when `i` is out of range (Go map read of a missing key). -/
def sasGet (sas : List SaEntry) (i : Int) : SaEntry :=
  if h : 0 ≤ i ∧ i.toNat < sas.length then sas.get ⟨i.toNat, h.2⟩ else zeroEntry

/-- Lookup in a `map[string]int` modelled as an association list. -/
def lookupStr (m : List (String × Nat)) (k : String) : Option Nat :=
  (m.find? (fun pr => pr.1 == k)).map (fun pr => pr.2)

/-- `m[k] = v` on a `map[string]int`: replaces any existing binding. -/
def mapInsert (m : List (String × Nat)) (k : String) (v : Nat) : List (String × Nat) :=
  (k, v) :: m.filter (fun pr => pr.1 != k)

/-- `delete(m, k)` on a `map[string]int`. -/
def mapErase (m : List (String × Nat)) (k : String) : List (String × Nat) :=
  m.filter (fun pr => pr.1 != k)

/-- The rotation-index part of `ServiceAccountPool`: `sas`, `activeIdx`,
`saPool` (the fields touched by the gclone-compatible methods). -/
structure Pool where
  sas : List SaEntry
  activeIdx : Int
  saPool : List (String × Nat)
deriving Repr, DecidableEq

/-- `NewServiceAccountPool`: empty maps, `activeIdx` at its zero value 0. -/
def initPool : Pool := ⟨[], 0, []⟩

/-- The loop `for i, v := range data { convData[v] = i }` from `updateSas`,
started at index `i` with accumulator `m`. -/
def updateSasBuild : List (String × Nat) → Nat → List String → List (String × Nat)
  | m, _, [] => m
  | m, i, v :: rest => updateSasBuild (mapInsert m v i) (i + 1) rest

/-- `findIdxByStrInPool` (saPool.go lines 123-128). -/
def findIdxByStrInPool (p : Pool) (str : String) : Int :=
  match lookupStr p.saPool str with
  | some idx => Int.ofNat idx
  | none => -1

/-- `updateSas` (saPool.go lines 98-120): rebuild the index from `data`,
appending `activeSa` when absent; no-op on empty inputs. -/
def updateSas (p : Pool) (data : List String) (activeSa : String) : Pool :=
  if data.length = 0 ∨ activeSa = "" then p
  else
    let convSas : List SaEntry := data.map (fun v => ⟨v, false⟩)
    let convData := updateSasBuild [] 0 data
    let p1 : Pool := { p with sas := convSas, saPool := convData }
    let result := findIdxByStrInPool p1 activeSa
    if result != -1 then { p1 with activeIdx := result }
    else
      let existLen := convSas.length
      { p1 with
          sas := convSas ++ [⟨activeSa, false⟩]
          saPool := mapInsert convData activeSa existLen
          activeIdx := Int.ofNat existLen }

/-- The `int` values `lo, lo+1, ..., hi-1` visited by a Go `for` loop. -/
def intRange (lo hi : Int) : List Int :=
  (List.range (hi - lo).toNat).map (fun n => lo + n)

/-- `rollup` (saPool.go lines 142-157): first non-stale entry scanning
forward from `activeIdx+1`, then wrapping through `0..activeIdx-1`. -/
def rollup (p : Pool) : String :=
  let existLen : Int := p.sas.length
  match (intRange (p.activeIdx + 1) existLen).findSome? (fun i =>
      if (sasGet p.sas i).isStale then none else some (sasGet p.sas i).saPath) with
  | some s => s
  | none =>
    match (intRange 0 p.activeIdx).findSome? (fun i =>
        if (sasGet p.sas i).isStale then none else some (sasGet p.sas i).saPath) with
    | some s => s
    | none => ""

/-- The order in which `rollup` visits indices. -/
def scanOrder (p : Pool) : List Int :=
  intRange (p.activeIdx + 1) p.sas.length ++ intRange 0 p.activeIdx

/-- `activeSa` (saPool.go lines 160-164): set `activeIdx` from the reverse
mapping; unknown paths are ignored. -/
def activeSa (p : Pool) (saPath : String) : Pool :=
  match lookupStr p.saPool saPath with
  | some entry => { p with activeIdx := Int.ofNat entry }
  | none => p

/-- `randomPick` (saPool.go lines 191-205): a value of `saPool` chosen by
the random oracle `r`, or -1 when the map is empty. -/
def randomPick (p : Pool) (r : Nat) : Int :=
  if h : p.saPool.length = 0 then -1
  else
    Int.ofNat (p.saPool.get ⟨r % p.saPool.length,
      Nat.mod_lt r (Nat.pos_of_ne_zero h)⟩).2

/-- The effective target of `staleSa`: the argument, or the active entry's
path when the argument is empty. -/
def staleTargetOf (p : Pool) (target : String) : String :=
  if target = "" then (sasGet p.sas p.activeIdx).saPath else target

/-- `staleSa` (saPool.go lines 169-188): mark the target stale, drop it from
the reverse mapping, then activate a random survivor.  Returns the new
pool plus the Go results `(bool, string)`. -/
def staleSa (p : Pool) (target : String) (r : Nat) : Pool × Bool × String :=
  let target := staleTargetOf p target
  let oldIdx : Nat := (lookupStr p.saPool target).getD 0
  let p1 : Pool :=
    match p.sas.get? oldIdx with
    | some entry => { p with sas := p.sas.set oldIdx { entry with isStale := true } }
    | none => p
  let p2 : Pool := { p1 with saPool := mapErase p1.saPool target }
  if p2.saPool.length = 0 then
    ({ p2 with activeIdx := -1 }, true, "")
  else
    let ret := randomPick p2 r
    if ret != -1 then
      ({ p2 with activeIdx := ret }, false, (sasGet p2.sas ret).saPath)
    else (p2, true, "")

/-- `isPoolEmpty` (saPool.go lines 208-210). -/
def isPoolEmpty (p : Pool) : Bool := p.saPool.length = 0

/-- `findIdxByStr` (saPool.go lines 131-138): scan `sas` for a path.  The Go
map is iterated in arbitrary order; keys are dense so we scan positions in
increasing order, which agrees with every iteration order whenever paths
are duplicate-free (the only situation the theorems below rely on). -/
def findIdxByStr (p : Pool) (str : String) : Int :=
  match p.sas.findIdx? (fun e => e.saPath == str) with
  | some i => Int.ofNat i
  | none => -1

/-- `revertStaleSa` (saPool.go lines 213-224). -/
def revertStaleSa (p : Pool) (target : String) : Pool :=
  if target = "" then p
  else
    let oldIdx := findIdxByStr p target
    if oldIdx != -1 then
      match p.sas.get? oldIdx.toNat with
      | some entry =>
          { p with
              sas := p.sas.set oldIdx.toNat { entry with isStale := false }
              saPool := mapInsert p.saPool target oldIdx.toNat }
      | none => p
    else p

/-- The RotationIndex invariant of the spec, as a boolean check: `saPool`
holds exactly the (identifier, index) pairs of the non-stale entries. -/
def rotInv (p : Pool) : Bool :=
  p.saPool.all (fun pr =>
    match p.sas.get? pr.2 with
    | some e => e.saPath == pr.1 && e.isStale == false
    | none => false)
  && (List.range p.sas.length).all (fun i =>
    match p.sas.get? i with
    | some e => e.isStale || (lookupStr p.saPool e.saPath == some i)
    | none => true)

/-! ## File pool with TTL blacklist (`GetFile` / `_getFile`) -/

/-- The process-wide blacklist `sync.Map`: identifier to time of
blacklisting (nanoseconds). -/
abbrev Blacklist := List (String × Int)

/-- `serviceAccountBlacklist.Load`. -/
def blLookup (bl : Blacklist) (k : String) : Option Int :=
  (bl.find? (fun pr => pr.1 == k)).map (fun pr => pr.2)

/-- `serviceAccountBlacklist.Store`. -/
def blStore (bl : Blacklist) (k : String) (t : Int) : Blacklist :=
  (k, t) :: bl.filter (fun pr => pr.1 != k)

/-- `serviceAccountBlacklist.Delete`. -/
def blDelete (bl : Blacklist) (k : String) : Blacklist :=
  bl.filter (fun pr => pr.1 != k)

/-- `time.Hour` in nanoseconds (Go's `time.Duration` unit). -/
def hour : Int := 3600 * 1000000000

/-- `const blacklistDuration = 25 * time.Hour` (saPool.go line 40). -/
def blacklistDuration : Int := 25 * hour

/-- The two failure modes of `_getFile`. -/
inductive GetFileErr where
  | noCandidates
  | allBlacklisted
deriving Repr, DecidableEq

/-- `delete(p.Files, k)`; `Files` is a `map[string]struct{}` modelled as the
list of its keys. -/
def filesDelete (files : List String) (k : String) : List String :=
  files.filter (fun f => f != k)

/-- The `Files` set after the exclusion step of `_getFile`. -/
def postExcludeFiles (files : List String) (excludeFile : String) : List String :=
  if excludeFile != "" then filesDelete files excludeFile else files

/-- The blacklist after the exclusion step of `_getFile`. -/
def postExcludeBl (bl : Blacklist) (excludeFile : String) (now : Int) : Blacklist :=
  if excludeFile != "" then blStore bl excludeFile now else bl

/-- The selection loop of `_getFile` (saPool.go lines 360-373): walk the
random permutation, return the first key that is absent from the blacklist
or expired (deleting an expired entry on the way out). -/
def getFileLoop (keys : List String) (bl : Blacklist) (now : Int) :
    List Nat → Except GetFileErr String × Blacklist
  | [] => (Except.error GetFileErr.allBlacklisted, bl)
  | idx :: rest =>
    let file := keys.getD idx ""
    match blLookup bl file with
    | none => (Except.ok file, bl)
    | some t =>
      if now - t > blacklistDuration then (Except.ok file, blDelete bl file)
      else getFileLoop keys bl now rest

deriving instance DecidableEq for Except

/-- Result of `_getFile`: the returned value or error, plus the final
`Files` set and blacklist. -/
structure GetFileOut where
  result : Except GetFileErr String
  files : List String
  bl : Blacklist
deriving Repr, DecidableEq

/-- `GetFile` / `_getFile` (saPool.go lines 338-377).  `now` stands for
`time.Now()` and `perm` for `rand.Perm(len(keys))`. -/
def getFile (files : List String) (bl : Blacklist) (excludeFile : String)
    (now : Int) (perm : List Nat) : GetFileOut :=
  let files1 := postExcludeFiles files excludeFile
  let bl1 := postExcludeBl bl excludeFile now
  if files1.length = 0 then ⟨Except.error GetFileErr.noCandidates, files1, bl1⟩
  else
    let out := getFileLoop files1 bl1 now perm
    ⟨out.1, files1, out.2⟩

/-! ## Preloaded client cache (`AddService` / `GetService` / `GetClient` /
`PreloadServices`) -/

/-- A preloaded (drive service, HTTP client) pair; the handle types are
opaque to the pool logic, so they are type parameters here. -/
structure ServiceAccountInfo (σ κ : Type) where
  Service : σ
  Client : κ
deriving Repr, DecidableEq

/-- `AddService` (saPool.go lines 276-283): push to the front, truncate to
`Max` when over capacity. -/
def AddService {σ κ : Type} (svcs : List (ServiceAccountInfo σ κ))
    (pair : ServiceAccountInfo σ κ) (Max : Nat) : List (ServiceAccountInfo σ κ) :=
  let svcs := pair :: svcs
  if svcs.length > Max then svcs.take Max else svcs

/-- `GetService` (saPool.go lines 286-295): front pair's service, rotating
the pair to the back; `none` models the "no available preloaded services"
error, which leaves the cache unchanged. -/
def GetService {σ κ : Type} :
    List (ServiceAccountInfo σ κ) → Option σ × List (ServiceAccountInfo σ κ)
  | [] => (none, [])
  | s :: rest => (some s.Service, rest ++ [s])

/-- `GetClient` (saPool.go lines 298-307): front pair's client, rotating the
pair to the back. -/
def GetClient {σ κ : Type} :
    List (ServiceAccountInfo σ κ) → Option κ × List (ServiceAccountInfo σ κ)
  | [] => (none, [])
  | s :: rest => (some s.Client, rest ++ [s])

/-- The build loop of `PreloadServices` (saPool.go lines 316-325): walk the
candidate files, keep up to `count` successful builds, skip failures.
`build` stands for the external `createDriveService`. -/
def preloadBuild {σ κ : Type} (build : String → Option (ServiceAccountInfo σ κ)) :
    List String → Nat → List (ServiceAccountInfo σ κ)
  | [], _ => []
  | _ :: _, 0 => []
  | f :: rest, Nat.succ n =>
    match build f with
    | some pr => pr :: preloadBuild build rest n
    | none => preloadBuild build rest (Nat.succ n)

/-- `PreloadServices` (saPool.go lines 311-331): built pairs are prepended
to the existing cache, with no capacity check. -/
def PreloadServices {σ κ : Type} (svcs : List (ServiceAccountInfo σ κ))
    (files : List String) (build : String → Option (ServiceAccountInfo σ κ))
    (count : Nat) : List (ServiceAccountInfo σ κ) :=
  preloadBuild build files count ++ svcs

/-- One cache operation, for stating properties over operation sequences. -/
inductive CacheOp (σ κ : Type) where
  | offer (pair : ServiceAccountInfo σ κ)
  | takeService
  | takeClient
  | preload (files : List String) (build : String → Option (ServiceAccountInfo σ κ))
      (count : Nat)

/-- Whether an operation is a `PreloadServices` call. -/
def CacheOp.isPreload {σ κ : Type} : CacheOp σ κ → Bool
  | CacheOp.preload _ _ _ => true
  | _ => false

/-- Effect of one cache operation on the `svcs` slice. -/
def cacheStep {σ κ : Type} (Max : Nat) (svcs : List (ServiceAccountInfo σ κ)) :
    CacheOp σ κ → List (ServiceAccountInfo σ κ)
  | CacheOp.offer pr => AddService svcs pr Max
  | CacheOp.takeService => (GetService svcs).2
  | CacheOp.takeClient => (GetClient svcs).2
  | CacheOp.preload files build count => PreloadServices svcs files build count

/-- Run a sequence of cache operations from the empty cache. -/
def cacheRun {σ κ : Type} (Max : Nat) (ops : List (CacheOp σ κ)) :
    List (ServiceAccountInfo σ κ) :=
  ops.foldl (cacheStep Max) []

/-! ## Rotation-index operation sequences, for the reachability claims -/

/-- One rotation-index operation with its arguments (random oracle
included).  `rollup` is omitted: it reads the pool but returns a string
without touching any field, so it cannot change a reachable state. -/
inductive PoolOp where
  | update (data : List String) (activeTo : String)
  | setActive (saPath : String)
  | markStale (target : String) (r : Nat)
  | revertStale (target : String)
deriving Repr

/-- Effect of one operation on the pool. -/
def poolStep (p : Pool) : PoolOp → Pool
  | PoolOp.update data activeTo => updateSas p data activeTo
  | PoolOp.setActive s => activeSa p s
  | PoolOp.markStale target r => (staleSa p target r).1
  | PoolOp.revertStale target => revertStaleSa p target

/-- Run a sequence of operations from the freshly constructed pool. -/
def poolRun (ops : List PoolOp) : Pool :=
  ops.foldl poolStep initPool

/-- Pool states reachable by well-formed calls: `updateSas` receives
duplicate-free lists and every `staleSa` call's effective target is present
in the reverse mapping. -/
inductive ReachableWF : Pool → Prop where
  | init : ReachableWF initPool
  | update (p : Pool) (h : ReachableWF p) (data : List String) (activeTo : String)
      (hd : data.Nodup) : ReachableWF (updateSas p data activeTo)
  | setActive (p : Pool) (h : ReachableWF p) (s : String) :
      ReachableWF (activeSa p s)
  | markStale (p : Pool) (h : ReachableWF p) (target : String) (r : Nat)
      (ht : (lookupStr p.saPool (staleTargetOf p target)).isSome = true) :
      ReachableWF ((staleSa p target r).1)
  | revertStale (p : Pool) (h : ReachableWF p) (target : String) :
      ReachableWF (revertStaleSa p target)

/-- The RotationIndex invariant as a proposition: every pair of the reverse
mapping points at a matching non-stale entry, and every non-stale entry is
reverse-mapped to its own index. -/
def InvP (sas : List SaEntry) (saPool : List (String × Nat)) : Prop :=
  (∀ pr ∈ saPool, ∃ e, sas.get? pr.2 = some e ∧ e.saPath = pr.1 ∧ e.isStale = false) ∧
  (∀ i e, sas.get? i = some e → e.isStale = false → lookupStr saPool e.saPath = some i)

/-- Well-formedness carried through the reachability induction: the
invariant plus duplicate-freedom of the entry identifiers. -/
def PWF (sas : List SaEntry) (saPool : List (String × Nat)) : Prop :=
  InvP sas saPool ∧ (sas.map SaEntry.saPath).Nodup

/-- The pair of `saPool` that `randomPick` selects for oracle `r` on a
non-empty map (the `r`-th pair in iteration order). -/
def pickedPair (sp : List (String × Nat)) (r : Nat) : String × Nat :=
  sp.getD (r % sp.length) ("", 0)

/-! # Theorems -/

/-! ## Association-list facts -/

theorem lookupStr_nil (k : String) : lookupStr [] k = none := rfl

theorem lookupStr_cons (pr : String × Nat) (m : List (String × Nat)) (k : String) :
    lookupStr (pr :: m) k = if pr.1 = k then some pr.2 else lookupStr m k := by
  by_cases h : pr.1 = k
  · simp [lookupStr, List.find?_cons, h]
  · have hb : (pr.1 == k) = false := by simp [h]
    simp [lookupStr, List.find?_cons, hb, h]

theorem lookupStr_mapInsert_self (m : List (String × Nat)) (k : String) (v : Nat) :
    lookupStr (mapInsert m k v) k = some v := by
  simp [mapInsert, lookupStr_cons]

theorem lookupStr_filter_ne (m : List (String × Nat)) (k k' : String) (h : k' ≠ k) :
    lookupStr (m.filter (fun pr => pr.1 != k)) k' = lookupStr m k' := by
  induction m with
  | nil => rfl
  | cons pr m ih =>
    by_cases hk : pr.1 = k
    · have hb : (pr.1 != k) = false := by simp [hk]
      have hne : pr.1 ≠ k' := by rw [hk]; exact h.symm
      simp [List.filter_cons, hb, lookupStr_cons, hne, ih]
    · have hb : (pr.1 != k) = true := by simp [hk]
      simp [List.filter_cons, hb, lookupStr_cons, ih]

theorem lookupStr_mapInsert_ne (m : List (String × Nat)) (k k' : String) (v : Nat)
    (h : k' ≠ k) : lookupStr (mapInsert m k v) k' = lookupStr m k' := by
  simp only [mapInsert, lookupStr_cons]
  have : ¬ k = k' := fun hh => h hh.symm
  simp [this, lookupStr_filter_ne m k k' h]

theorem lookupStr_mapErase_self (m : List (String × Nat)) (k : String) :
    lookupStr (mapErase m k) k = none := by
  induction m with
  | nil => rfl
  | cons pr m ih =>
    by_cases hk : pr.1 = k
    · have : (pr.1 != k) = false := by simp [hk]
      rw [mapErase, List.filter_cons, this]
      exact ih
    · have : (pr.1 != k) = true := by simp [hk]
      rw [mapErase, List.filter_cons, this]
      simpa [lookupStr_cons, hk] using ih

theorem lookupStr_mapErase_ne (m : List (String × Nat)) (k k' : String) (h : k' ≠ k) :
    lookupStr (mapErase m k) k' = lookupStr m k' :=
  lookupStr_filter_ne m k k' h

theorem mem_of_lookupStr (m : List (String × Nat)) (k : String) (v : Nat)
    (h : lookupStr m k = some v) : (k, v) ∈ m := by
  induction m with
  | nil => simp [lookupStr] at h
  | cons pr m ih =>
    rw [lookupStr_cons] at h
    by_cases hk : pr.1 = k
    · rw [if_pos hk] at h
      injection h with h
      rw [List.mem_cons]
      left
      cases pr
      simp_all
    · rw [if_neg hk] at h
      exact List.mem_cons_of_mem _ (ih h)

theorem mem_mapErase (m : List (String × Nat)) (k : String) (pr : String × Nat)
    (h : pr ∈ mapErase m k) : pr ∈ m ∧ pr.1 ≠ k := by
  have := List.of_mem_filter h
  exact ⟨List.mem_of_mem_filter h, by simpa using this⟩

/-! ## C9: rebuild with empty inputs is a strict no-op -/

/-- C9: calling `updateSas` with an empty identifier list or an empty active
identifier leaves the pool — entry array, reverse mapping and activeIdx —
exactly as it was, and raises no error. -/
theorem updateSas_empty_noop (p : Pool) (data : List String) (activeTo : String)
    (h : data = [] ∨ activeTo = "") : updateSas p data activeTo = p := by
  rcases h with h | h <;> simp [updateSas, h]

/-- Witness for C9 at a concrete, fully populated pool. -/
theorem updateSas_empty_noop_witness :
    updateSas ⟨[⟨"a", true⟩], 5, [("x", 3)]⟩ [] "b" = ⟨[⟨"a", true⟩], 5, [("x", 3)]⟩ :=
  updateSas_empty_noop ⟨[⟨"a", true⟩], 5, [("x", 3)]⟩ [] "b" (Or.inl rfl)

/-! ## C7: take fails exactly on empty and rotates front to back -/

/-- C7: `GetService`/`GetClient` fail exactly when the cache is empty;
otherwise they return the front pair's handle and re-append that same front
pair to the back, so length and multiset of pairs are unchanged. -/
theorem cache_take_roundrobin {σ κ : Type} (svcs : List (ServiceAccountInfo σ κ)) :
    ((GetService svcs).1 = none ↔ svcs = []) ∧
    ((GetClient svcs).1 = none ↔ svcs = []) ∧
    (∀ h : svcs ≠ [],
      (GetService svcs).1 = some (svcs.head h).Service ∧
      (GetService svcs).2 = svcs.tail ++ [svcs.head h] ∧
      (GetClient svcs).1 = some (svcs.head h).Client ∧
      (GetClient svcs).2 = svcs.tail ++ [svcs.head h]) ∧
    (GetService svcs).2.length = svcs.length ∧
    (GetClient svcs).2.length = svcs.length ∧
    (GetService svcs).2.Perm svcs ∧
    (GetClient svcs).2.Perm svcs := by
  cases svcs with
  | nil => simp [GetService, GetClient]
  | cons s rest =>
    refine ⟨by simp [GetService], by simp [GetClient], fun h => ?_, ?_, ?_, ?_, ?_⟩
    · simp [GetService, GetClient]
    · simp [GetService]
    · simp [GetClient]
    · exact List.perm_append_singleton s rest
    · exact List.perm_append_singleton s rest

/-- Witness for C7 at a one-element cache. -/
theorem cache_take_roundrobin_witness :
    (GetService ([⟨1, 2⟩] : List (ServiceAccountInfo Nat Nat))).1 = some 1 ∧
    (GetService ([⟨1, 2⟩] : List (ServiceAccountInfo Nat Nat))).2 = [⟨1, 2⟩] :=
  ⟨((cache_take_roundrobin [⟨1, 2⟩]).2.2.1 (by decide)).1,
   ((cache_take_roundrobin [⟨1, 2⟩]).2.2.1 (by decide)).2.1⟩

/-! ## C10: consecutive GetService / GetClient draw from successive deque
positions -/

/-- C10 counterexample: with a cache holding the same (client, service)
pair twice, `GetService` then `GetClient` return the Service and the Client
of that one pair `⟨5, 7⟩`, which is present in the cache — so the two
handles do belong to a single (client, service) pair, refuting the claim's
final "never" clause at a concrete input. -/
theorem getService_getClient_same_pair :
    (GetService ([⟨5, 7⟩, ⟨5, 7⟩] : List (ServiceAccountInfo Nat Nat))).1 = some 5 ∧
    (GetClient (GetService ([⟨5, 7⟩, ⟨5, 7⟩] :
        List (ServiceAccountInfo Nat Nat))).2).1 = some 7 ∧
    (⟨5, 7⟩ : ServiceAccountInfo Nat Nat) ∈
      ([⟨5, 7⟩, ⟨5, 7⟩] : List (ServiceAccountInfo Nat Nat)) := by
  decide

/-- C10 amended: on a cache with at least two pairs, `GetService` returns
the Service of the front pair and rotates it to the back, so the following
`GetClient` returns the Client of the (originally second) pair now at the
front: the two handles are drawn from the first and second deque positions,
hence from distinct pairs whenever those two entries differ. -/
theorem getService_then_getClient {σ κ : Type} (p0 p1 : ServiceAccountInfo σ κ)
    (rest : List (ServiceAccountInfo σ κ)) :
    (GetService (p0 :: p1 :: rest)).1 = some p0.Service ∧
    (GetClient (GetService (p0 :: p1 :: rest)).2).1 = some p1.Client ∧
    (GetClient (GetService (p0 :: p1 :: rest)).2).2 = rest ++ [p0, p1] := by
  refine ⟨rfl, rfl, ?_⟩
  show (rest ++ [p0]) ++ [p1] = rest ++ [p0, p1]
  simp

/-! ## C4: the Max bound holds for offer and take, but not for preload -/

/-- C4 counterexample: a `PreloadServices` call on a pool with `Max = 0`
leaves the cache with one entry — the Preloaded Client Cache length exceeds
`Max` after a preload operation completes, refuting the claim as stated. -/
theorem preload_exceeds_max :
    0 < (cacheRun 0 [CacheOp.preload ["f"] (fun _ => some ⟨0, 0⟩) 1] :
      List (ServiceAccountInfo Nat Nat)).length := by
  decide

theorem addService_length_le {σ κ : Type} (svcs : List (ServiceAccountInfo σ κ))
    (pr : ServiceAccountInfo σ κ) (Max : Nat) :
    (AddService svcs pr Max).length ≤ Max ⊔ svcs.length := by
  unfold AddService
  by_cases hl : (pr :: svcs).length > Max
  · simp only [if_pos hl, List.length_take]
    omega
  · simp only [if_neg hl]
    omega

/-- C4 amended: over every sequence of offer (`AddService`) and take
(`GetService`/`GetClient`) operations from any state within capacity, the
cache length never exceeds `Max`; a `PreloadServices` call, by contrast,
prepends its built pairs without a capacity check and can exceed `Max`. -/
theorem cache_length_le_max {σ κ : Type} (Max : Nat) (ops : List (CacheOp σ κ))
    (hops : ∀ op ∈ ops, op.isPreload = false)
    (svcs : List (ServiceAccountInfo σ κ)) (hlen : svcs.length ≤ Max) :
    (ops.foldl (cacheStep Max) svcs).length ≤ Max := by
  induction ops generalizing svcs with
  | nil => simpa using hlen
  | cons op rest ih =>
    rw [List.foldl_cons]
    refine ih (fun o ho => hops o (List.mem_cons_of_mem _ ho)) _ ?_
    cases op with
    | offer pr => exact le_trans (addService_length_le svcs pr Max) (sup_le le_rfl hlen)
    | takeService =>
      cases svcs with
      | nil => simp [cacheStep, GetService]
      | cons s r =>
        simp only [cacheStep, GetService, List.length_append]
        simp at hlen ⊢
        omega
    | takeClient =>
      cases svcs with
      | nil => simp [cacheStep, GetClient]
      | cons s r =>
        simp only [cacheStep, GetClient, List.length_append]
        simp at hlen ⊢
        omega
    | preload files build count =>
      have := hops _ (List.mem_cons_self _ _)
      simp [CacheOp.isPreload] at this

/-- Witness for the amended C4: three offers and a take against `Max = 2`
stay within the bound. -/
theorem cache_length_le_max_witness :
    ((([CacheOp.offer ⟨1, 1⟩, CacheOp.offer ⟨2, 2⟩, CacheOp.takeService,
        CacheOp.offer ⟨3, 3⟩] : List (CacheOp Nat Nat)).foldl (cacheStep 2) []).length ≤ 2) :=
  cache_length_le_max 2 _ (by decide) [] (by decide)

/-! ## C5: rollover scans forward, wraps, and never yields a stale entry -/

theorem findSome?_stale_eq (sas : List SaEntry) (l : List Int) :
    (l.findSome? (fun i =>
        if (sasGet sas i).isStale then none else some (sasGet sas i).saPath))
      = (l.find? (fun i => !(sasGet sas i).isStale)).map
          (fun i => (sasGet sas i).saPath) := by
  induction l with
  | nil => rfl
  | cons a l ih =>
    cases hs : (sasGet sas a).isStale with
    | true => simp [List.findSome?_cons, List.find?_cons, hs, ih]
    | false => simp [List.findSome?_cons, List.find?_cons, hs]

theorem find?_append_cases (l1 l2 : List Int) (q : Int → Bool) :
    (l1 ++ l2).find? q = match l1.find? q with
      | some a => some a
      | none => l2.find? q := by
  induction l1 with
  | nil => simp
  | cons a l ih =>
    cases hq : q a with
    | true => simp [List.find?_cons, hq]
    | false => simp [List.find?_cons, hq, ih]

/-- `rollup` equals the first hit of a `find?` over the scan order. -/
theorem rollup_eq_match (p : Pool) :
    rollup p = match (scanOrder p).find? (fun i => !(sasGet p.sas i).isStale) with
      | some i => (sasGet p.sas i).saPath
      | none => "" := by
  unfold rollup scanOrder
  simp only [findSome?_stale_eq, find?_append_cases]
  cases h1 : (intRange (p.activeIdx + 1) (p.sas.length : Int)).find?
      (fun i => !(sasGet p.sas i).isStale) with
  | some i => simp
  | none =>
    cases h2 : (intRange 0 p.activeIdx).find? (fun i => !(sasGet p.sas i).isStale) with
    | some i => simp
    | none => simp

theorem sasGet_mem_or_zero (sas : List SaEntry) (i : Int) :
    sasGet sas i ∈ sas ∨ sasGet sas i = zeroEntry := by
  unfold sasGet
  split
  · exact Or.inl (List.get_mem _ _ _)
  · exact Or.inr rfl

/-- When every entry is stale, the scan finds nothing real and `rollup`
returns the empty sentinel. -/
theorem rollup_all_stale (p : Pool) (h : ∀ e ∈ p.sas, e.isStale = true) :
    rollup p = "" := by
  rw [rollup_eq_match]
  cases hf : (scanOrder p).find? (fun i => !(sasGet p.sas i).isStale) with
  | none => simp
  | some i =>
    have hq := List.find?_some hf
    simp only [Bool.not_eq_true'] at hq
    rcases sasGet_mem_or_zero p.sas i with hm | hz
    · rw [h _ hm] at hq
      cases hq
    · simp [hz, zeroEntry]

/-- C5: `rollup` scans forward from `activeIdx+1` to the last index, then
wraps through `0..activeIdx-1` (`scanOrder`); it returns the identifier of
the first non-stale entry found in that order — an entry that is not stale
— and returns the empty-string sentinel when every entry is stale.  It is a
pure function of the pool (type `Pool → String`), so it mutates neither
`activeIdx` nor any other pool state. -/
theorem rollup_first_nonstale (p : Pool) :
    (∀ i, (scanOrder p).find? (fun j => !(sasGet p.sas j).isStale) = some i →
      rollup p = (sasGet p.sas i).saPath ∧ (sasGet p.sas i).isStale = false) ∧
    ((scanOrder p).find? (fun j => !(sasGet p.sas j).isStale) = none → rollup p = "") ∧
    ((∀ e ∈ p.sas, e.isStale = true) → rollup p = "") := by
  refine ⟨fun i hi => ?_, fun hn => ?_, rollup_all_stale p⟩
  · have hq := List.find?_some hi
    simp only [Bool.not_eq_true'] at hq
    rw [rollup_eq_match, hi]
    exact ⟨rfl, hq⟩
  · rw [rollup_eq_match, hn]

/-- Witness for C5 at a pool whose single entry is stale. -/
theorem rollup_first_nonstale_witness : rollup ⟨[⟨"a", true⟩], 0, []⟩ = "" :=
  (rollup_first_nonstale ⟨[⟨"a", true⟩], 0, []⟩).2.2 (by decide)

/-! ## Blacklist-registry facts -/

theorem blLookup_cons (pr : String × Int) (bl : Blacklist) (k : String) :
    blLookup (pr :: bl) k = if pr.1 = k then some pr.2 else blLookup bl k := by
  by_cases h : pr.1 = k
  · simp [blLookup, List.find?_cons, h]
  · have hb : (pr.1 == k) = false := by simp [h]
    simp [blLookup, List.find?_cons, hb, h]

theorem blLookup_filter_ne (bl : Blacklist) (k k' : String) (h : k' ≠ k) :
    blLookup (bl.filter (fun pr => pr.1 != k)) k' = blLookup bl k' := by
  induction bl with
  | nil => rfl
  | cons pr bl ih =>
    by_cases hk : pr.1 = k
    · have hb : (pr.1 != k) = false := by simp [hk]
      have hne : pr.1 ≠ k' := by rw [hk]; exact h.symm
      simp [List.filter_cons, hb, blLookup_cons, hne, ih]
    · have hb : (pr.1 != k) = true := by simp [hk]
      simp [List.filter_cons, hb, blLookup_cons, ih]

theorem blLookup_delete_self (bl : Blacklist) (k : String) :
    blLookup (blDelete bl k) k = none := by
  induction bl with
  | nil => rfl
  | cons pr bl ih =>
    by_cases hk : pr.1 = k
    · have hb : (pr.1 != k) = false := by simp [hk]
      rw [blDelete, List.filter_cons, hb]
      exact ih
    · have hb : (pr.1 != k) = true := by simp [hk]
      rw [blDelete, List.filter_cons, hb]
      simpa [blLookup_cons, hk] using ih

theorem blLookup_delete_ne (bl : Blacklist) (k k' : String) (h : k' ≠ k) :
    blLookup (blDelete bl k) k' = blLookup bl k' :=
  blLookup_filter_ne bl k k' h

theorem blLookup_store_self (bl : Blacklist) (k : String) (t : Int) :
    blLookup (blStore bl k t) k = some t := by
  simp [blStore, blLookup_cons]

theorem blLookup_store_ne (bl : Blacklist) (k k' : String) (t : Int) (h : k' ≠ k) :
    blLookup (blStore bl k t) k' = blLookup bl k' := by
  simp only [blStore, blLookup_cons]
  have hne : ¬ k = k' := fun hh => h hh.symm
  simp [hne, blLookup_filter_ne bl k k' h]

theorem getD_mem_or_default (keys : List String) (idx : Nat) :
    keys.getD idx "" ∈ keys ∨ keys.getD idx "" = "" := by
  rw [List.getD_eq_getElem?_getD]
  cases hg : keys[idx]? with
  | none => simp
  | some v =>
    left
    simpa using List.getElem?_mem hg

/-! ## Facts about the selection loop of `_getFile` -/

/-- A successful loop result passed the blacklist check: its entry (under
the blacklist the loop reads) is absent or expired, its entry afterwards is
gone, and it came from `keys` (or is the out-of-range default). -/
theorem getFileLoop_ok (keys : List String) (bl : Blacklist) (now : Int) :
    ∀ perm f bl2, getFileLoop keys bl now perm = (Except.ok f, bl2) →
      (∀ t, blLookup bl f = some t → now - t > blacklistDuration) ∧
      blLookup bl2 f = none ∧ (f ∈ keys ∨ f = "") := by
  intro perm
  induction perm with
  | nil =>
    intro f bl2 h
    simp [getFileLoop] at h
  | cons idx rest ih =>
    intro f bl2 h
    simp only [getFileLoop] at h
    split at h
    next hb =>
      simp only [Prod.mk.injEq, Except.ok.injEq] at h
      obtain ⟨rfl, rfl⟩ := h
      refine ⟨fun t ht => ?_, hb, getD_mem_or_default keys idx⟩
      rw [hb] at ht
      cases ht
    next t hb =>
      split at h
      next hgt =>
        simp only [Prod.mk.injEq, Except.ok.injEq] at h
        obtain ⟨rfl, rfl⟩ := h
        refine ⟨fun t' ht' => ?_, blLookup_delete_self _ _, getD_mem_or_default keys idx⟩
        rw [hb] at ht'
        injection ht' with ht'
        rw [ht'] at hgt
        exact hgt
      next hgt => exact ih f bl2 h

/-- An exhausted loop reports `allBlacklisted`, leaves the blacklist
untouched, and every permutation position it visited was unexpired. -/
theorem getFileLoop_error (keys : List String) (bl : Blacklist) (now : Int) :
    ∀ perm bl2 e, getFileLoop keys bl now perm = (Except.error e, bl2) →
      e = GetFileErr.allBlacklisted ∧ bl2 = bl ∧
      ∀ idx ∈ perm, ∃ t, blLookup bl (keys.getD idx "") = some t ∧
        ¬(now - t > blacklistDuration) := by
  intro perm
  induction perm with
  | nil =>
    intro bl2 e h
    simp only [getFileLoop, Prod.mk.injEq, Except.error.injEq] at h
    obtain ⟨rfl, rfl⟩ := h
    exact ⟨rfl, rfl, by simp⟩
  | cons idx rest ih =>
    intro bl2 e h
    simp only [getFileLoop] at h
    split at h
    next hb => simp at h
    next t hb =>
      split at h
      next hgt => simp at h
      next hgt =>
        obtain ⟨he, hbl, hall⟩ := ih bl2 e h
        refine ⟨he, hbl, fun j hj => ?_⟩
        rcases List.mem_cons.mp hj with rfl | hj
        · exact ⟨t, hb, hgt⟩
        · exact hall j hj

/-- When every key is blacklisted and unexpired, the loop exhausts any
in-range permutation. -/
theorem getFileLoop_all_unexpired (keys : List String) (bl : Blacklist) (now : Int)
    (hall : ∀ f ∈ keys, ∃ t, blLookup bl f = some t ∧ ¬(now - t > blacklistDuration)) :
    ∀ perm, (∀ idx ∈ perm, idx < keys.length) →
      getFileLoop keys bl now perm = (Except.error GetFileErr.allBlacklisted, bl) := by
  intro perm
  induction perm with
  | nil => intro _; rfl
  | cons idx rest ih =>
    intro hin
    have hlt : idx < keys.length := hin idx (List.mem_cons_self _ _)
    have hmem : keys.getD idx "" ∈ keys := by
      rw [List.getD_eq_getElem?_getD, List.getElem?_eq_getElem hlt]
      exact List.getElem?_mem (List.getElem?_eq_getElem hlt)
    obtain ⟨t, ht, hgt⟩ := hall _ hmem
    simp only [getFileLoop, ht]
    rw [if_neg hgt]
    exact ih (fun j hj => hin j (List.mem_cons_of_mem _ hj))

/-- When the permutation first visits an expired blacklisted key, the loop
returns it and deletes its blacklist entry. -/
theorem getFileLoop_first_expired (keys : List String) (bl : Blacklist) (now : Int)
    (i : Nat) (rest : List Nat) (f : String) (t : Int)
    (hg : keys.get? i = some f) (ht : blLookup bl f = some t)
    (hgt : now - t > blacklistDuration) :
    getFileLoop keys bl now (i :: rest) = (Except.ok f, blDelete bl f) := by
  have hd : keys.getD i "" = f := by
    rw [List.getD_eq_getElem?_getD, ← List.get?_eq_getElem?, hg]
    rfl
  simp only [getFileLoop, hd, ht]
  rw [if_pos hgt]

theorem getFileLoop_cons_none (keys : List String) (bl : Blacklist) (now : Int)
    (idx : Nat) (rest : List Nat) (hb : blLookup bl (keys.getD idx "") = none) :
    getFileLoop keys bl now (idx :: rest) = (Except.ok (keys.getD idx ""), bl) := by
  simp only [getFileLoop, hb]

theorem getFileLoop_cons_some (keys : List String) (bl : Blacklist) (now : Int)
    (idx : Nat) (rest : List Nat) (t : Int)
    (hb : blLookup bl (keys.getD idx "") = some t) :
    getFileLoop keys bl now (idx :: rest) =
      if now - t > blacklistDuration then
        (Except.ok (keys.getD idx ""), blDelete bl (keys.getD idx ""))
      else getFileLoop keys bl now rest := by
  simp only [getFileLoop, hb]

/-- The loop result is a success or the `allBlacklisted` error, and the
final blacklist is unchanged or has exactly the returned key deleted. -/
theorem getFileLoop_shapes (keys : List String) (bl : Blacklist) (now : Int) :
    ∀ perm, ((∃ f, (getFileLoop keys bl now perm).1 = Except.ok f) ∨
        (getFileLoop keys bl now perm).1 = Except.error GetFileErr.allBlacklisted) ∧
      ((getFileLoop keys bl now perm).2 = bl ∨
        ∃ f, (f ∈ keys ∨ f = "") ∧ (getFileLoop keys bl now perm).2 = blDelete bl f) := by
  intro perm
  induction perm with
  | nil => exact ⟨Or.inr rfl, Or.inl rfl⟩
  | cons idx rest ih =>
    cases hb : blLookup bl (keys.getD idx "") with
    | none =>
      rw [getFileLoop_cons_none keys bl now idx rest hb]
      exact ⟨Or.inl ⟨keys.getD idx "", rfl⟩, Or.inl rfl⟩
    | some t =>
      rw [getFileLoop_cons_some keys bl now idx rest t hb]
      by_cases hgt : now - t > blacklistDuration
      · rw [if_pos hgt]
        exact ⟨Or.inl ⟨keys.getD idx "", rfl⟩,
          Or.inr ⟨keys.getD idx "", getD_mem_or_default keys idx, rfl⟩⟩
      · rw [if_neg hgt]
        exact ih

/-! ## Facts about `getFile` itself -/

theorem getFile_files_eq (files : List String) (bl : Blacklist) (x : String)
    (now : Int) (perm : List Nat) :
    (getFile files bl x now perm).files = postExcludeFiles files x := by
  unfold getFile
  by_cases h : (postExcludeFiles files x).length = 0 <;> simp [h]

theorem getFile_empty (files : List String) (bl : Blacklist) (x : String)
    (now : Int) (perm : List Nat) (h : (postExcludeFiles files x).length = 0) :
    (getFile files bl x now perm).result = Except.error GetFileErr.noCandidates ∧
    (getFile files bl x now perm).bl = postExcludeBl bl x now := by
  unfold getFile
  simp [h]

theorem getFile_of_nonempty (files : List String) (bl : Blacklist) (x : String)
    (now : Int) (perm : List Nat) (h : ¬ (postExcludeFiles files x).length = 0) :
    (getFile files bl x now perm).result
        = (getFileLoop (postExcludeFiles files x) (postExcludeBl bl x now) now perm).1 ∧
    (getFile files bl x now perm).bl
        = (getFileLoop (postExcludeFiles files x) (postExcludeBl bl x now) now perm).2 := by
  unfold getFile
  simp [h]

/-! ## C2: the 25-hour TTL is respected, with lazy eviction -/

/-- C2: `selectExcluding` never returns an identifier whose blacklist entry
(in the registry state the selection reads, i.e. after the exclusion write)
is strictly less than 25 hours old — the returned identifier's entry, when
present, is strictly older than `blacklistDuration` — and once returned its
entry has been deleted from the registry; moreover an identifier whose
entry is more than 25 hours old is eligible: whenever the permutation
considers its position first it is selected and purged. -/
theorem getFile_ttl (files : List String) (bl : Blacklist) (x : String) (now : Int) :
    (∀ perm f, (getFile files bl x now perm).result = Except.ok f →
      (∀ t, blLookup (postExcludeBl bl x now) f = some t → now - t > blacklistDuration) ∧
      blLookup (getFile files bl x now perm).bl f = none) ∧
    (∀ i rest f t, (postExcludeFiles files x).get? i = some f →
      blLookup (postExcludeBl bl x now) f = some t → now - t > blacklistDuration →
      (getFile files bl x now (i :: rest)).result = Except.ok f ∧
      blLookup (getFile files bl x now (i :: rest)).bl f = none) := by
  constructor
  · intro perm f hok
    by_cases h0 : (postExcludeFiles files x).length = 0
    · rw [(getFile_empty files bl x now perm h0).1] at hok
      cases hok
    · obtain ⟨hres, hbl⟩ := getFile_of_nonempty files bl x now perm h0
      have h1 : (getFileLoop (postExcludeFiles files x) (postExcludeBl bl x now) now
          perm).1 = Except.ok f := by rw [← hres]; exact hok
      have hpair : getFileLoop (postExcludeFiles files x) (postExcludeBl bl x now) now
          perm = (Except.ok f,
            (getFileLoop (postExcludeFiles files x) (postExcludeBl bl x now) now
              perm).2) := by
        rw [← h1]
      obtain ⟨hcheck, hnone, _⟩ := getFileLoop_ok _ _ _ perm f _ hpair
      refine ⟨hcheck, ?_⟩
      rw [hbl]
      exact hnone
  · intro i rest f t hg ht hgt
    have h0 : ¬ (postExcludeFiles files x).length = 0 := by
      intro hlen
      rw [List.length_eq_zero] at hlen
      rw [hlen] at hg
      cases hg
    obtain ⟨hres, hbl⟩ := getFile_of_nonempty files bl x now (i :: rest) h0
    have hloop := getFileLoop_first_expired (postExcludeFiles files x)
      (postExcludeBl bl x now) now i rest f t hg ht hgt
    rw [hloop] at hres hbl
    refine ⟨hres, ?_⟩
    rw [hbl]
    exact blLookup_delete_self _ _

/-- Witness for C2: a single candidate blacklisted 26 hours ago is returned
and its registry entry is purged. -/
theorem getFile_ttl_witness :
    (getFile ["a"] [("a", 0)] "" (26 * hour) [0]).result = Except.ok "a" ∧
    blLookup (getFile ["a"] [("a", 0)] "" (26 * hour) [0]).bl "a" = none :=
  (getFile_ttl ["a"] [("a", 0)] "" (26 * hour)).2 0 [] "a" 0 rfl rfl (by decide)

/-! ## C3: exclusion is recorded exactly once, and the two errors are
characterized -/

theorem not_mem_filesDelete (files : List String) (x : String) :
    x ∉ filesDelete files x := by
  simp [filesDelete, List.mem_filter]

theorem mem_filesDelete_ne (files : List String) (x f : String)
    (h : f ∈ filesDelete files x) : f ≠ x := by
  have := List.of_mem_filter h
  simpa using this

/-- C3: for a non-empty excluded identifier `x`, `selectExcluding` records
exactly the key `x` (with the current time, and touching no other key) in
the registry and removes `x` from the AvailableSet; it fails with
`noCandidates` exactly when the AvailableSet is empty after that exclusion,
and (for a genuine permutation of the candidates) fails with
`allBlacklisted` exactly when every remaining identifier has an unexpired
blacklist entry. -/
theorem getFile_exclusion (files : List String) (bl : Blacklist) (x : String)
    (now : Int) (hx : x ≠ "") :
    (∀ perm,
      blLookup (getFile files bl x now perm).bl x = some now ∧
      x ∉ (getFile files bl x now perm).files ∧
      (∀ k, k ≠ x → blLookup (postExcludeBl bl x now) k = blLookup bl k) ∧
      ((getFile files bl x now perm).result = Except.error GetFileErr.noCandidates ↔
        filesDelete files x = [])) ∧
    (∀ perm, perm.Perm (List.range (filesDelete files x).length) →
      ((getFile files bl x now perm).result = Except.error GetFileErr.allBlacklisted ↔
        (filesDelete files x ≠ [] ∧
         ∀ f ∈ filesDelete files x, ∃ t, blLookup (postExcludeBl bl x now) f = some t ∧
           ¬(now - t > blacklistDuration)))) := by
  have hxb : (x != "") = true := by simpa using hx
  have hpe : postExcludeFiles files x = filesDelete files x := by
    simp [postExcludeFiles, hxb]
  have hpb : postExcludeBl bl x now = blStore bl x now := by
    simp [postExcludeBl, hxb]
  constructor
  · intro perm
    refine ⟨?_, ?_, ?_, ?_⟩
    · -- the blacklist write at key x survives to the end of the call
      by_cases h0 : (postExcludeFiles files x).length = 0
      · rw [(getFile_empty files bl x now perm h0).2, hpb]
        exact blLookup_store_self bl x now
      · obtain ⟨-, hbl⟩ := getFile_of_nonempty files bl x now perm h0
        rcases (getFileLoop_shapes (postExcludeFiles files x)
            (postExcludeBl bl x now) now perm).2 with hsame | ⟨f, hforig, hdel⟩
        · rw [hbl, hsame, hpb]
          exact blLookup_store_self bl x now
        · have hfx : x ≠ f := by
            rcases hforig with hmem | hemp
            · rw [hpe] at hmem
              exact Ne.symm (mem_filesDelete_ne files x f hmem)
            · rw [hemp]
              exact hx
          rw [hbl, hdel, blLookup_delete_ne _ _ _ hfx, hpb]
          exact blLookup_store_self bl x now
    · -- x is removed from the AvailableSet
      rw [getFile_files_eq, hpe]
      exact not_mem_filesDelete files x
    · -- no key other than x is written by the exclusion step
      intro k hk
      rw [hpb]
      exact blLookup_store_ne bl x k now hk
    · -- noCandidates exactly when the set is empty after exclusion
      constructor
      · intro hres
        by_cases h0 : (postExcludeFiles files x).length = 0
        · rw [hpe] at h0
          exact List.length_eq_zero.mp h0
        · obtain ⟨hres2, -⟩ := getFile_of_nonempty files bl x now perm h0
          rw [hres2] at hres
          rcases (getFileLoop_shapes (postExcludeFiles files x)
              (postExcludeBl bl x now) now perm).1 with ⟨f, hf⟩ | herr
          · rw [hf] at hres
            cases hres
          · rw [herr] at hres
            simp at hres
      · intro hnil
        have h0 : (postExcludeFiles files x).length = 0 := by
          rw [hpe, hnil]
          rfl
        exact (getFile_empty files bl x now perm h0).1
  · intro perm hperm
    constructor
    · intro hres
      by_cases h0 : (postExcludeFiles files x).length = 0
      · rw [(getFile_empty files bl x now perm h0).1] at hres
        simp at hres
      · obtain ⟨hres2, -⟩ := getFile_of_nonempty files bl x now perm h0
        rw [hres2] at hres
        have hpair : getFileLoop (postExcludeFiles files x) (postExcludeBl bl x now) now
            perm = (Except.error GetFileErr.allBlacklisted,
              (getFileLoop (postExcludeFiles files x) (postExcludeBl bl x now) now
                perm).2) := by
          rw [← hres]
        obtain ⟨-, -, hall⟩ := getFileLoop_error _ _ _ perm _ _ hpair
        refine ⟨?_, fun f hf => ?_⟩
        · rw [hpe] at h0
          intro hnil
          rw [hnil] at h0
          exact h0 rfl
        · rw [← hpe] at hf
          obtain ⟨i, hi⟩ := List.mem_iff_get?.mp hf
          have hlt : i < (postExcludeFiles files x).length := by
            by_contra hge
            rw [List.get?_eq_none.mpr (Nat.le_of_not_lt hge)] at hi
            cases hi
          have hiperm : i ∈ perm := by
            refine hperm.mem_iff.mpr (List.mem_range.mpr ?_)
            rw [← hpe]
            exact hlt
          obtain ⟨t, ht, hgt⟩ := hall i hiperm
          have hd : (postExcludeFiles files x).getD i "" = f := by
            rw [List.getD_eq_getElem?_getD, ← List.get?_eq_getElem?, hi]
            rfl
          rw [hd] at ht
          exact ⟨t, ht, hgt⟩
    · rintro ⟨hne, hall⟩
      have h0 : ¬ (postExcludeFiles files x).length = 0 := by
        rw [hpe]
        intro hlen
        exact hne (List.length_eq_zero.mp hlen)
      obtain ⟨hres2, -⟩ := getFile_of_nonempty files bl x now perm h0
      rw [hres2]
      have hloop := getFileLoop_all_unexpired (postExcludeFiles files x)
        (postExcludeBl bl x now) now (by rw [hpe]; exact hall) perm
        (fun idx hidx => by
          have hr := hperm.mem_iff.mp hidx
          rw [hpe]
          exact List.mem_range.mp hr)
      rw [hloop]

/-- Witness for C3: excluding `s1` writes exactly `s1` at the current time;
with the only other candidate blacklisted one hour ago, the result is
`allBlacklisted`. -/
theorem getFile_exclusion_witness :
    blLookup (getFile ["s1", "s2"] [("s2", 0)] "s1" hour [0]).bl "s1" = some hour ∧
    (getFile ["s1", "s2"] [("s2", 0)] "s1" hour [0]).result
      = Except.error GetFileErr.allBlacklisted :=
  ⟨((getFile_exclusion ["s1", "s2"] [("s2", 0)] "s1" hour (by decide)).1 [0]).1,
   ((getFile_exclusion ["s1", "s2"] [("s2", 0)] "s1" hour (by decide)).2 [0]
      (by decide)).mpr
     ⟨by decide, fun f hf => by
        have hf2 : f = "s2" := by simpa [filesDelete] using hf
        subst hf2
        exact ⟨0, rfl, by decide⟩⟩⟩

/-! ## Facts about the index built by `updateSas` -/

theorem updateSasBuild_not_mem (d : List String) :
    ∀ (m : List (String × Nat)) (i : Nat) (s : String), s ∉ d →
      lookupStr (updateSasBuild m i d) s = lookupStr m s := by
  induction d with
  | nil =>
    intro m i s _
    rfl
  | cons v rest ih =>
    intro m i s hs
    have hsv : s ≠ v := fun h => hs (h ▸ List.mem_cons_self v rest)
    have hsr : s ∉ rest := fun h => hs (List.mem_cons_of_mem _ h)
    rw [updateSasBuild, ih _ _ _ hsr, lookupStr_mapInsert_ne _ _ _ _ hsv]

theorem updateSasBuild_mem (d : List String) :
    ∀ (m : List (String × Nat)) (i : Nat) (s : String), s ∈ d →
      ∃ k, d.get? k = some s ∧ lookupStr (updateSasBuild m i d) s = some (i + k) := by
  induction d with
  | nil =>
    intro m i s hs
    cases hs
  | cons v rest ih =>
    intro m i s hs
    by_cases hsr : s ∈ rest
    · obtain ⟨k, hk, hl⟩ := ih (mapInsert m v i) (i + 1) s hsr
      refine ⟨k + 1, by simpa using hk, ?_⟩
      rw [updateSasBuild, hl]
      congr 1
      omega
    · have hsv : s = v := by
        rcases List.mem_cons.mp hs with h | h
        · exact h
        · exact absurd h hsr
      subst hsv
      refine ⟨0, rfl, ?_⟩
      rw [updateSasBuild, updateSasBuild_not_mem rest _ _ _ hsr,
        lookupStr_mapInsert_self]
      simp

theorem updateSasBuild_pairs (d : List String) :
    ∀ (m : List (String × Nat)) (i : Nat) (pr : String × Nat),
      pr ∈ updateSasBuild m i d →
      (∃ k, d.get? k = some pr.1 ∧ pr.2 = i + k) ∨ pr ∈ m := by
  induction d with
  | nil =>
    intro m i pr h
    exact Or.inr h
  | cons v rest ih =>
    intro m i pr h
    rw [updateSasBuild] at h
    rcases ih (mapInsert m v i) (i + 1) pr h with ⟨k, hk, hv⟩ | hm
    · refine Or.inl ⟨k + 1, by simpa using hk, ?_⟩
      rw [hv]
      omega
    · rcases List.mem_cons.mp hm with h1 | h2
      · subst h1
        exact Or.inl ⟨0, rfl, (Nat.add_zero i).symm⟩
      · exact Or.inr (List.mem_of_mem_filter h2)

theorem sasGet_ofNat (sas : List SaEntry) (k : Nat) (e : SaEntry)
    (h : sas.get? k = some e) : sasGet sas (Int.ofNat k) = e := by
  have hk : k < sas.length := by
    by_contra hge
    rw [List.get?_eq_none.mpr (Nat.le_of_not_lt hge)] at h
    cases h
  unfold sasGet
  rw [dif_pos ⟨Int.ofNat_nonneg k, by simpa using hk⟩]
  have h5 := List.get?_eq_get hk
  rw [h] at h5
  injection h5 with h5
  exact h5.symm

theorem updateSas_cond (data : List String) (activeTo : String)
    (hd : data ≠ []) (ha : activeTo ≠ "") : ¬(data.length = 0 ∨ activeTo = "") := by
  rintro (h1 | h2)
  · exact hd (List.length_eq_zero.mp h1)
  · exact ha h2

/-- The found-in-list branch of `updateSas`, fully evaluated. -/
theorem updateSas_found (p : Pool) (data : List String) (activeTo : String) (k : Nat)
    (hcond : ¬(data.length = 0 ∨ activeTo = ""))
    (hlook : lookupStr (updateSasBuild [] 0 data) activeTo = some k) :
    updateSas p data activeTo =
      ⟨data.map (fun v => ⟨v, false⟩), Int.ofNat k, updateSasBuild [] 0 data⟩ := by
  unfold updateSas
  rw [if_neg hcond]
  have hne : (Int.ofNat k != -1) = true := by
    rw [bne_iff_ne, Int.ofNat_eq_coe]
    omega
  simp only [findIdxByStrInPool, hlook, hne, if_true]

/-- The appended branch of `updateSas`, fully evaluated. -/
theorem updateSas_notfound (p : Pool) (data : List String) (activeTo : String)
    (hcond : ¬(data.length = 0 ∨ activeTo = ""))
    (hlook : lookupStr (updateSasBuild [] 0 data) activeTo = none) :
    updateSas p data activeTo =
      ⟨data.map (fun v => ⟨v, false⟩) ++ [⟨activeTo, false⟩],
        Int.ofNat (data.map (fun v => (⟨v, false⟩ : SaEntry))).length,
        mapInsert (updateSasBuild [] 0 data) activeTo
          (data.map (fun v => (⟨v, false⟩ : SaEntry))).length⟩ := by
  unfold updateSas
  rw [if_neg hcond]
  simp only [findIdxByStrInPool, hlook, bne_self_eq_false]
  rw [if_neg (show ¬(false = true) by decide)]

/-! ## C8: after a non-trivial rebuild, the active entry is activeIdentifier -/

/-- C8: after `updateSas` with non-empty inputs, the entries hold the input
identifiers in order (all non-stale), the active entry's identifier equals
`activeTo`; when `activeTo` occurs in the list, `activeIdx` is a position
where the list holds `activeTo` and nothing is appended; otherwise
`activeTo` is appended as a new entry at the end and made active. -/
theorem updateSas_rebuild (p : Pool) (data : List String) (activeTo : String)
    (hd : data ≠ []) (ha : activeTo ≠ "") :
    (∀ i, i < data.length →
      (updateSas p data activeTo).sas.get? i = some ⟨data.getD i "", false⟩) ∧
    sasGet (updateSas p data activeTo).sas (updateSas p data activeTo).activeIdx
      = ⟨activeTo, false⟩ ∧
    (activeTo ∈ data → ∃ k, (updateSas p data activeTo).activeIdx = Int.ofNat k ∧
      data.get? k = some activeTo ∧
      (updateSas p data activeTo).sas.length = data.length) ∧
    (activeTo ∉ data → (updateSas p data activeTo).activeIdx = Int.ofNat data.length ∧
      (updateSas p data activeTo).sas
        = data.map (fun v => ⟨v, false⟩) ++ [⟨activeTo, false⟩]) := by
  have hcond := updateSas_cond data activeTo hd ha
  have hgetmap : ∀ i, i < data.length →
      (data.map (fun v => (⟨v, false⟩ : SaEntry))).get? i
        = some ⟨data.getD i "", false⟩ := by
    intro i hi
    rw [List.get?_map, List.get?_eq_get hi, List.getD_eq_get?, List.get?_eq_get hi]
    rfl
  by_cases hmem : activeTo ∈ data
  · obtain ⟨k, hk, hl⟩ := updateSasBuild_mem data [] 0 activeTo hmem
    rw [Nat.zero_add] at hl
    rw [updateSas_found p data activeTo k hcond hl]
    have hsk : (data.map (fun v => (⟨v, false⟩ : SaEntry))).get? k
        = some ⟨activeTo, false⟩ := by
      rw [List.get?_map, hk]
      rfl
    refine ⟨hgetmap, sasGet_ofNat _ k _ hsk, fun _ => ⟨k, rfl, hk, by simp⟩,
      fun hnot => absurd hmem hnot⟩
  · have hl : lookupStr (updateSasBuild [] 0 data) activeTo = none :=
      updateSasBuild_not_mem data [] 0 activeTo hmem
    rw [updateSas_notfound p data activeTo hcond hl]
    refine ⟨fun i hi => ?_, ?_, fun hin => absurd hin hmem, fun _ => by simp⟩
    · rw [List.get?_append (by simpa using hi)]
      exact hgetmap i hi
    · refine sasGet_ofNat _ _ _ ?_
      rw [List.get?_append_right (Nat.le_refl _)]
      simp

/-- Witness for C8: rebuilding with an active identifier absent from the
list appends and activates it. -/
theorem updateSas_rebuild_witness :
    sasGet (updateSas initPool ["a", "b"] "c").sas
        (updateSas initPool ["a", "b"] "c").activeIdx = ⟨"c", false⟩ ∧
    (updateSas initPool ["a", "b"] "c").activeIdx = Int.ofNat 2 :=
  ⟨(updateSas_rebuild initPool ["a", "b"] "c" (by decide) (by decide)).2.1,
   ((updateSas_rebuild initPool ["a", "b"] "c" (by decide) (by decide)).2.2.2
      (by decide)).1⟩

/-! ## Basic facts about the invariant and the pool operations -/

theorem InvP_init : InvP [] [] := by
  constructor
  · intro pr h
    cases h
  · intro i e h
    simp at h

theorem rotInv_of_InvP (p : Pool) (h : InvP p.sas p.saPool) : rotInv p = true := by
  unfold rotInv
  rw [Bool.and_eq_true]
  constructor
  · rw [List.all_eq_true]
    intro pr hpr
    obtain ⟨e, he, hp, hs⟩ := h.1 pr hpr
    rw [he]
    simp [hp, hs]
  · rw [List.all_eq_true]
    intro i hi
    cases hg : p.sas.get? i with
    | none => simp
    | some e =>
      by_cases hs : e.isStale = true
      · simp [hs]
      · have hs2 : e.isStale = false := by simpa using hs
        have hl := h.2 i e hg hs2
        simp [hs2, hl]

theorem InvP_of_rotInv (p : Pool) (h : rotInv p = true) : InvP p.sas p.saPool := by
  unfold rotInv at h
  rw [Bool.and_eq_true] at h
  obtain ⟨h1, h2⟩ := h
  constructor
  · intro pr hpr
    have hx := List.all_eq_true.mp h1 pr hpr
    cases hg : p.sas.get? pr.2 with
    | none =>
      rw [hg] at hx
      cases hx
    | some e =>
      rw [hg] at hx
      rw [Bool.and_eq_true, beq_iff_eq, beq_iff_eq] at hx
      exact ⟨e, rfl, hx.1, hx.2⟩
  · intro i e hg hs
    have hilen : i < p.sas.length := by
      by_contra hge
      rw [List.get?_eq_none.mpr (Nat.le_of_not_lt hge)] at hg
      cases hg
    have hx := List.all_eq_true.mp h2 i (List.mem_range.mpr hilen)
    rw [hg] at hx
    rw [Bool.or_eq_true] at hx
    rcases hx with hx | hx
    · rw [hs] at hx
      cases hx
    · rwa [beq_iff_eq] at hx

theorem map_saPath_set (l : List SaEntry) :
    ∀ (j : Nat) (e : SaEntry) (b : Bool), l.get? j = some e →
      (l.set j ⟨e.saPath, b⟩).map SaEntry.saPath = l.map SaEntry.saPath := by
  induction l with
  | nil =>
    intro j e b h
    cases h
  | cons a l ih =>
    intro j e b h
    cases j with
    | zero =>
      injection h with h
      subst h
      simp [List.set]
    | succ j =>
      simp only [List.set, List.map_cons]
      rw [ih j e b h]

theorem paths_nodup_ne (sas : List SaEntry) (hnd : (sas.map SaEntry.saPath).Nodup)
    (i i' : Nat) (e e2 : SaEntry) (hi : sas.get? i = some e) (hi2 : sas.get? i' = some e2)
    (hne : i ≠ i') : e.saPath ≠ e2.saPath := by
  intro hpp
  apply hne
  have hlt : i < sas.length := by
    by_contra hge
    rw [List.get?_eq_none.mpr (Nat.le_of_not_lt hge)] at hi
    cases hi
  have hlt2 : i < (sas.map SaEntry.saPath).length := by simpa using hlt
  apply List.getElem?_inj hlt2 hnd
  rw [← List.get?_eq_getElem?, ← List.get?_eq_getElem?, List.get?_map, List.get?_map,
    hi, hi2]
  simp [hpp]

theorem pickedPair_mem (sp : List (String × Nat)) (r : Nat) (h : ¬ sp.length = 0) :
    pickedPair sp r ∈ sp := by
  unfold pickedPair
  have hlt : r % sp.length < sp.length := Nat.mod_lt r (Nat.pos_of_ne_zero h)
  rw [List.getD_eq_getElem?_getD, List.getElem?_eq_getElem hlt]
  exact List.getElem?_mem (List.getElem?_eq_getElem hlt)

theorem randomPick_eq (p : Pool) (r : Nat) (h : ¬ p.saPool.length = 0) :
    randomPick p r = Int.ofNat (pickedPair p.saPool r).2 := by
  unfold randomPick pickedPair
  rw [dif_neg h]
  congr 1
  have hlt : r % p.saPool.length < p.saPool.length := Nat.mod_lt r (Nat.pos_of_ne_zero h)
  rw [List.getD_eq_getElem?_getD, List.getElem?_eq_getElem hlt]
  rfl

theorem activeSa_proj (p : Pool) (s : String) :
    (activeSa p s).sas = p.sas ∧ (activeSa p s).saPool = p.saPool := by
  unfold activeSa
  cases h : lookupStr p.saPool s <;> simp

/-! ## Evaluating `staleSa` when its effective target is known -/

theorem staleSa_empty (p : Pool) (target : String) (r : Nat) (j : Nat) (e : SaEntry)
    (ht : lookupStr p.saPool (staleTargetOf p target) = some j)
    (he : p.sas.get? j = some e)
    (h0 : (mapErase p.saPool (staleTargetOf p target)).length = 0) :
    staleSa p target r = (⟨p.sas.set j { e with isStale := true }, -1,
      mapErase p.saPool (staleTargetOf p target)⟩, true, "") := by
  unfold staleSa
  simp only [ht, Option.getD_some, he]
  rw [if_pos h0]

theorem staleSa_nonempty (p : Pool) (target : String) (r : Nat) (j : Nat) (e : SaEntry)
    (ht : lookupStr p.saPool (staleTargetOf p target) = some j)
    (he : p.sas.get? j = some e)
    (h0 : ¬ (mapErase p.saPool (staleTargetOf p target)).length = 0) :
    staleSa p target r = (⟨p.sas.set j { e with isStale := true },
      Int.ofNat (pickedPair (mapErase p.saPool (staleTargetOf p target)) r).2,
      mapErase p.saPool (staleTargetOf p target)⟩, false,
      (sasGet (p.sas.set j { e with isStale := true })
        (Int.ofNat (pickedPair (mapErase p.saPool (staleTargetOf p target)) r).2)).saPath)
    := by
  unfold staleSa
  simp only [ht, Option.getD_some, he]
  rw [if_neg h0]
  have hrp : randomPick ⟨p.sas.set j { e with isStale := true }, p.activeIdx,
      mapErase p.saPool (staleTargetOf p target)⟩ r
      = Int.ofNat (pickedPair (mapErase p.saPool (staleTargetOf p target)) r).2 :=
    randomPick_eq _ r h0
  rw [hrp]
  have hb : (Int.ofNat (pickedPair (mapErase p.saPool (staleTargetOf p target)) r).2
      != -1) = true := by
    rw [bne_iff_ne, Int.ofNat_eq_coe]
    omega
  rw [if_pos hb]

/-- The stale-marking step preserves the invariant: the target's pair is
removed and its entry flagged, everything else is untouched. -/
theorem InvP_stale_step (sas : List SaEntry) (sp : List (String × Nat)) (tgt : String)
    (j : Nat) (e : SaEntry) (hInv : InvP sas sp) (hj : lookupStr sp tgt = some j)
    (he : sas.get? j = some e) :
    InvP (sas.set j { e with isStale := true }) (mapErase sp tgt) := by
  obtain ⟨fwd, rev⟩ := hInv
  obtain ⟨e0, he0, hp0, hs0⟩ := fwd (tgt, j) (mem_of_lookupStr sp tgt j hj)
  rw [he] at he0
  injection he0 with he0
  subst he0
  constructor
  · intro pr hpr
    obtain ⟨hmem, hne⟩ := mem_mapErase sp tgt pr hpr
    obtain ⟨e2, he2, hp2, hs2⟩ := fwd pr hmem
    have hne2 : pr.2 ≠ j := by
      intro hji
      rw [hji, he] at he2
      injection he2 with he2
      apply hne
      rw [← hp2, ← he2, hp0]
    refine ⟨e2, ?_, hp2, hs2⟩
    rw [List.get?_eq_getElem?, List.getElem?_set_ne (Ne.symm hne2),
      ← List.get?_eq_getElem?]
    exact he2
  · intro i e2 hi2 hs2
    by_cases hij : i = j
    · subst hij
      have hlen : i < sas.length := by
        by_contra hge
        rw [List.get?_eq_none.mpr (Nat.le_of_not_lt hge)] at he
        cases he
      rw [List.get?_eq_getElem?, List.getElem?_set_self hlen] at hi2
      injection hi2 with hi2
      rw [← hi2] at hs2
      cases hs2
    · rw [List.get?_eq_getElem?, List.getElem?_set_ne (Ne.symm hij),
        ← List.get?_eq_getElem?] at hi2
      have hl := rev i e2 hi2 hs2
      have hnet : e2.saPath ≠ tgt := by
        intro hp2
        rw [hp2, hj] at hl
        injection hl with hl
        exact hij hl.symm
      rw [lookupStr_mapErase_ne sp tgt e2.saPath hnet]
      exact hl

/-! ## Preservation of well-formedness by the pool operations -/

theorem get?_some_lt {α : Type} (l : List α) (i : Nat) (a : α)
    (h : l.get? i = some a) : i < l.length := by
  by_contra hge
  rw [List.get?_eq_none.mpr (Nat.le_of_not_lt hge)] at h
  cases h

theorem nodup_get?_eq (d : List String) (hd : d.Nodup) (i k : Nat) (s : String)
    (hi : d.get? i = some s) (hk : d.get? k = some s) : k = i := by
  apply List.getElem?_inj (get?_some_lt d k s hk) hd
  rw [← List.get?_eq_getElem?, ← List.get?_eq_getElem?, hi, hk]

theorem saPath_comp_mk : (fun e => SaEntry.saPath e) ∘ (fun v => SaEntry.mk v false)
    = fun v => v := rfl

/-- A full rebuild from a duplicate-free list is well-formed. -/
theorem PWF_rebuild (data : List String) (hd : data.Nodup) :
    PWF (data.map (fun v => ⟨v, false⟩)) (updateSasBuild [] 0 data) := by
  refine ⟨⟨?_, ?_⟩, ?_⟩
  · intro pr hpr
    rcases updateSasBuild_pairs data [] 0 pr hpr with ⟨k, hk, hv⟩ | hm
    · refine ⟨⟨pr.1, false⟩, ?_, rfl, rfl⟩
      rw [hv, Nat.zero_add, List.get?_map, hk]
      rfl
    · cases hm
  · intro i e hi hs
    rw [List.get?_map] at hi
    cases hg : data.get? i with
    | none =>
      rw [hg] at hi
      cases hi
    | some s =>
      rw [hg] at hi
      injection hi with hi
      obtain ⟨k, hk, hl⟩ := updateSasBuild_mem data [] 0 s (List.get?_mem hg)
      rw [Nat.zero_add] at hl
      rw [nodup_get?_eq data hd i k s hg hk] at hl
      rw [← hi]
      exact hl
  · rw [List.map_map, saPath_comp_mk, List.map_id']
    exact hd

/-- A rebuild that appends the active identifier is well-formed. -/
theorem PWF_rebuild_append (data : List String) (activeTo : String)
    (hd : data.Nodup) (hmem : activeTo ∉ data) :
    PWF (data.map (fun v => ⟨v, false⟩) ++ [⟨activeTo, false⟩])
      (mapInsert (updateSasBuild [] 0 data) activeTo
        (data.map (fun v => (⟨v, false⟩ : SaEntry))).length) := by
  refine ⟨⟨?_, ?_⟩, ?_⟩
  · intro pr hpr
    rcases List.mem_cons.mp hpr with heq | hpr2
    · subst heq
      refine ⟨⟨activeTo, false⟩, ?_, rfl, rfl⟩
      rw [List.get?_append_right (Nat.le_refl _)]
      simp
    · have hpr3 := List.mem_of_mem_filter hpr2
      rcases updateSasBuild_pairs data [] 0 pr hpr3 with ⟨k, hk, hv⟩ | hm
      · have hklen : k < data.length := get?_some_lt data k pr.1 hk
        refine ⟨⟨pr.1, false⟩, ?_, rfl, rfl⟩
        rw [hv, Nat.zero_add, List.get?_append (by simpa using hklen),
          List.get?_map, hk]
        rfl
      · cases hm
  · intro i e hi hs
    by_cases hlen : i < data.length
    · rw [List.get?_append (by simpa using hlen), List.get?_map] at hi
      cases hg : data.get? i with
      | none =>
        rw [hg] at hi
        cases hi
      | some s =>
        rw [hg] at hi
        injection hi with hi
        have hsne : s ≠ activeTo := by
          intro hq
          rw [hq] at hg
          exact hmem (List.get?_mem hg)
        rw [← hi]
        rw [lookupStr_mapInsert_ne _ _ _ _ hsne]
        obtain ⟨k, hk, hl⟩ := updateSasBuild_mem data [] 0 s (List.get?_mem hg)
        rw [Nat.zero_add] at hl
        rw [nodup_get?_eq data hd i k s hg hk] at hl
        exact hl
    · have hle : (data.map (fun v => (⟨v, false⟩ : SaEntry))).length ≤ i := by
        simpa using Nat.le_of_not_lt hlen
      rw [List.get?_append_right hle] at hi
      cases hsub : i - (data.map (fun v => (⟨v, false⟩ : SaEntry))).length with
      | zero =>
        rw [hsub] at hi
        injection hi with hi
        have hieq : i = (data.map (fun v => (⟨v, false⟩ : SaEntry))).length := by
          omega
        rw [← hi, hieq]
        exact lookupStr_mapInsert_self _ _ _
      | succ m =>
        rw [hsub] at hi
        cases hi
  · rw [List.map_append, List.map_map, saPath_comp_mk, List.map_id']
    rw [List.nodup_append]
    refine ⟨hd, List.nodup_singleton _, ?_⟩
    intro a ha hb
    simp at hb
    subst hb
    exact hmem ha

theorem PWF_updateSas (p : Pool) (data : List String) (activeTo : String)
    (hd : data.Nodup) (ih : PWF p.sas p.saPool) :
    PWF (updateSas p data activeTo).sas (updateSas p data activeTo).saPool := by
  by_cases hcond : data.length = 0 ∨ activeTo = ""
  · rw [updateSas, if_pos hcond]
    exact ih
  · by_cases hmem : activeTo ∈ data
    · obtain ⟨k, hk, hl⟩ := updateSasBuild_mem data [] 0 activeTo hmem
      rw [Nat.zero_add] at hl
      rw [updateSas_found p data activeTo k hcond hl]
      exact PWF_rebuild data hd
    · have hl := updateSasBuild_not_mem data [] 0 activeTo hmem
      rw [updateSas_notfound p data activeTo hcond hl]
      exact PWF_rebuild_append data activeTo hd hmem

/-- The revert step preserves the invariant and path uniqueness. -/
theorem InvP_revert_step (sas : List SaEntry) (sp : List (String × Nat)) (tgt : String)
    (i : Nat) (e : SaEntry) (hInv : InvP sas sp)
    (hnd : (sas.map SaEntry.saPath).Nodup)
    (he : sas.get? i = some e) (hp : e.saPath = tgt) :
    InvP (sas.set i { e with isStale := false }) (mapInsert sp tgt i) := by
  obtain ⟨fwd, rev⟩ := hInv
  have hlen : i < sas.length := get?_some_lt sas i e he
  constructor
  · intro pr hpr
    rcases List.mem_cons.mp hpr with heq | hpr2
    · subst heq
      refine ⟨{ e with isStale := false }, ?_, hp, rfl⟩
      rw [List.get?_eq_getElem?, List.getElem?_set_self hlen]
    · have hpr3 := List.mem_of_mem_filter hpr2
      have hne : pr.1 ≠ tgt := by simpa using List.of_mem_filter hpr2
      obtain ⟨e2, he2, hp2, hs2⟩ := fwd pr hpr3
      have hne2 : pr.2 ≠ i := by
        intro hji
        rw [hji, he] at he2
        injection he2 with he2
        apply hne
        rw [← hp2, ← he2, hp]
      refine ⟨e2, ?_, hp2, hs2⟩
      rw [List.get?_eq_getElem?, List.getElem?_set_ne (Ne.symm hne2),
        ← List.get?_eq_getElem?]
      exact he2
  · intro i2 e2 hi2 hs2
    by_cases hij : i2 = i
    · subst hij
      rw [List.get?_eq_getElem?, List.getElem?_set_self hlen] at hi2
      injection hi2 with hi2
      rw [← hi2, hp]
      exact lookupStr_mapInsert_self _ _ _
    · rw [List.get?_eq_getElem?, List.getElem?_set_ne (Ne.symm hij),
        ← List.get?_eq_getElem?] at hi2
      have hnet : e2.saPath ≠ tgt := by
        rw [← hp]
        exact paths_nodup_ne sas hnd i2 i e2 e hi2 he hij
      rw [lookupStr_mapInsert_ne _ _ _ _ hnet]
      exact rev i2 e2 hi2 hs2

theorem PWF_revertStale (p : Pool) (target : String) (ih : PWF p.sas p.saPool) :
    PWF (revertStaleSa p target).sas (revertStaleSa p target).saPool := by
  unfold revertStaleSa
  by_cases h1 : target = ""
  · rw [if_pos h1]
    exact ih
  · rw [if_neg h1]
    cases hf : p.sas.findIdx? (fun e => e.saPath == target) with
    | none =>
      have hcompute : findIdxByStr p target = -1 := by
        simp only [findIdxByStr, hf]
      simp only [hcompute]
      rw [if_neg (show ¬((-1 : Int) != -1) = true by decide)]
      exact ih
    | some i =>
      obtain ⟨hlt, hpi, -⟩ := List.findIdx?_eq_some_iff_getElem.mp hf
      have hbi : (((i : Nat) : Int) != -1) = true := by
        rw [bne_iff_ne]
        omega
      have hcompute : findIdxByStr p target = Int.ofNat i := by
        simp only [findIdxByStr, hf]
      have hget : p.sas.get? i = some (p.sas.get ⟨i, hlt⟩) := List.get?_eq_get hlt
      simp only [hcompute, hbi, if_true, Int.ofNat_eq_coe, Int.toNat_ofNat, hget]
      have hpath : (p.sas.get ⟨i, hlt⟩).saPath = target := by
        rw [beq_iff_eq] at hpi
        exact hpi
      refine ⟨InvP_revert_step p.sas p.saPool target i _ ih.1 ih.2 hget hpath, ?_⟩
      rw [map_saPath_set p.sas i _ false hget]
      exact ih.2

/-- Well-formedness holds along every sequence of well-formed calls. -/
theorem PWF_of_reachable (p : Pool) (h : ReachableWF p) : PWF p.sas p.saPool := by
  induction h with
  | init => exact ⟨InvP_init, List.nodup_nil⟩
  | update q hq data activeTo hd ih => exact PWF_updateSas q data activeTo hd ih
  | setActive q hq s ih =>
    obtain ⟨h1, h2⟩ := activeSa_proj q s
    rw [h1, h2]
    exact ih
  | markStale q hq target r ht ih =>
    obtain ⟨j, hj⟩ := Option.isSome_iff_exists.mp ht
    obtain ⟨e, he, hp, hs⟩ := ih.1.1 _ (mem_of_lookupStr _ _ _ hj)
    by_cases h0 : (mapErase q.saPool (staleTargetOf q target)).length = 0
    · rw [staleSa_empty q target r j e hj he h0]
      exact ⟨InvP_stale_step q.sas q.saPool _ j e ih.1 hj he,
        by rw [map_saPath_set q.sas j e true he]; exact ih.2⟩
    · rw [staleSa_nonempty q target r j e hj he h0]
      exact ⟨InvP_stale_step q.sas q.saPool _ j e ih.1 hj he,
        by rw [map_saPath_set q.sas j e true he]; exact ih.2⟩
  | revertStale q hq target ih => exact PWF_revertStale q target ih

/-! ## C1: the RotationIndex invariant -/

/-- C1 counterexample: the claim quantifies over arbitrary string arguments,
but `staleSa` reads `p.saPool[target]` without an `ok` check, so an unknown
target resolves to index 0: after the reachable sequence
`updateSas ["a"] "a"; staleSa "b"`, entry 0 is flagged stale yet its pair
stays in the reverse mapping — the invariant is false at this reachable
state. -/
theorem rotationIndex_invariant_cex :
    rotInv (poolRun [PoolOp.update ["a"] "a", PoolOp.markStale "b" 0]) = false := by
  decide

/-- C1 amended: over every sequence of operations in which each `updateSas`
call receives a duplicate-free identifier list and each `staleSa` call's
effective target (the argument, or the active entry's identifier when the
argument is empty) is present in the reverse mapping, the RotationIndex
invariant holds after every operation: `saPool` holds exactly the
identifier-to-index pairs of the non-stale entries, while staled entries
stay addressable by position (`setActive`, `revertStaleSa` and the pure
`rollup` need no restriction). -/
theorem rotationIndex_invariant (p : Pool) (h : ReachableWF p) : rotInv p = true :=
  rotInv_of_InvP p (PWF_of_reachable p h).1

/-- Witness for the amended C1 on a concrete well-formed call sequence. -/
theorem rotationIndex_invariant_witness :
    rotInv (revertStaleSa ((staleSa (updateSas initPool ["a", "b"] "a") "a" 0).1) "a")
      = true :=
  rotationIndex_invariant _
    (ReachableWF.revertStale _
      (ReachableWF.markStale _
        (ReachableWF.update initPool ReachableWF.init ["a", "b"] "a" (by decide))
        "a" 0 (by decide))
      "a")

/-! ## C6: markStale reports exhaustion exactly when nothing non-stale
remains -/

/-- C6 counterexample: from the reachable pool reached by
`updateSas ["a","b"] "a"; staleSa "c"` (the unknown target "c" silently
stales entry 0 while leaving it in the reverse mapping), calling `staleSa`
with the known target "b" returns `exhausted = false` and the identifier
"a" even though every entry is now stale — contradicting the claimed
equivalence for a pool whose target is a known entry. -/
theorem staleSa_exhaustion_cex :
    (lookupStr ((staleSa (updateSas initPool ["a", "b"] "a") "c" 0).1).saPool "b").isSome
        = true ∧
    (staleSa ((staleSa (updateSas initPool ["a", "b"] "a") "c" 0).1) "b" 0).2.1 = false ∧
    (staleSa ((staleSa (updateSas initPool ["a", "b"] "a") "c" 0).1) "b" 0).2.2 = "a" ∧
    ((staleSa ((staleSa (updateSas initPool ["a", "b"] "a") "c" 0).1) "b" 0).1).sas.all
      (fun e => e.isStale) = true := by
  decide

/-- C6 amended: for every pool satisfying the RotationIndex invariant whose
effective target is a known (reverse-mapped) entry, `staleSa` returns
`(true, "")` and sets `activeIdx` to the empty sentinel exactly when no
non-stale entries remain after staling the target, and otherwise returns
`(false, id)` where `id` is the identifier of the non-stale entry that
becomes active; after an exhausting call, `rollup` returns the empty
string. -/
theorem staleSa_exhaustion (p : Pool) (target : String) (r : Nat)
    (hInv : rotInv p = true)
    (ht : (lookupStr p.saPool (staleTargetOf p target)).isSome = true) :
    ((staleSa p target r).2.1 = true ↔
      (staleSa p target r).1.sas.all (fun e => e.isStale) = true) ∧
    ((staleSa p target r).2.1 = true →
      (staleSa p target r).2.2 = "" ∧ (staleSa p target r).1.activeIdx = -1 ∧
      rollup (staleSa p target r).1 = "") ∧
    ((staleSa p target r).2.1 = false →
      (staleSa p target r).2.2
          = (sasGet (staleSa p target r).1.sas (staleSa p target r).1.activeIdx).saPath ∧
      (sasGet (staleSa p target r).1.sas (staleSa p target r).1.activeIdx).isStale
          = false) := by
  obtain ⟨j, hj⟩ := Option.isSome_iff_exists.mp ht
  have hI := InvP_of_rotInv p hInv
  obtain ⟨e, he, hp, hs⟩ := hI.1 _ (mem_of_lookupStr _ _ _ hj)
  have hI2 := InvP_stale_step p.sas p.saPool _ j e hI hj he
  by_cases h0 : (mapErase p.saPool (staleTargetOf p target)).length = 0
  · rw [staleSa_empty p target r j e hj he h0]
    have hnil : mapErase p.saPool (staleTargetOf p target) = [] :=
      List.length_eq_zero.mp h0
    have hall : ∀ e2 ∈ p.sas.set j { e with isStale := true }, e2.isStale = true := by
      intro e2 hmem
      by_contra hstale
      have hstale2 : e2.isStale = false := by simpa using hstale
      obtain ⟨i, hi⟩ := List.mem_iff_get?.mp hmem
      have := hI2.2 i e2 hi hstale2
      rw [hnil] at this
      cases this
    have halltrue : (p.sas.set j { e with isStale := true }).all
        (fun e2 => e2.isStale) = true := by
      rw [List.all_eq_true]
      intro e2 h2
      simpa using hall e2 h2
    refine ⟨⟨fun _ => halltrue, fun _ => rfl⟩, fun _ => ⟨rfl, rfl, ?_⟩,
      fun hcontra => Bool.noConfusion hcontra⟩
    exact rollup_all_stale _ hall
  · rw [staleSa_nonempty p target r j e hj he h0]
    have hvmem := pickedPair_mem (mapErase p.saPool (staleTargetOf p target)) r h0
    obtain ⟨e2, he2, hp2, hs2⟩ := hI2.1 _ hvmem
    have hsg : sasGet (p.sas.set j { e with isStale := true })
        (Int.ofNat (pickedPair (mapErase p.saPool (staleTargetOf p target)) r).2) = e2 :=
      sasGet_ofNat _ _ _ he2
    refine ⟨⟨fun hcontra => Bool.noConfusion hcontra, fun hall => ?_⟩,
      fun hcontra => Bool.noConfusion hcontra, fun _ => ⟨rfl, ?_⟩⟩
    · have hx := List.all_eq_true.mp hall e2 (List.get?_mem he2)
      rw [hs2] at hx
      cases hx
    · rw [hsg]
      exact hs2

/-- Witness for the amended C6: staling the only entry reports exhaustion,
empties the active pointer, and a subsequent rollover returns empty. -/
theorem staleSa_exhaustion_witness :
    (staleSa (updateSas initPool ["a"] "a") "a" 0).2.2 = "" ∧
    (staleSa (updateSas initPool ["a"] "a") "a" 0).1.activeIdx = -1 ∧
    rollup (staleSa (updateSas initPool ["a"] "a") "a" 0).1 = "" :=
  (staleSa_exhaustion (updateSas initPool ["a"] "a") "a" 0 (by decide) (by decide)).2.1
    rfl

end EClone
